import Mathlib

/-!
Verification of the mayan-cli specification against a shallow embedding of
src/main.rs.  Bytes are modelled as natural numbers, byte buffers as
`List Nat`, fallible Rust code as `Option`/dedicated outcome types, and
`panic!`/`unwrap` aborts as explicit `panicked` outcomes.
-/

/-- Little-endian interpretation of a byte list, as in u64 from_le_bytes. -/
def leU64 (bs : List Nat) : Nat :=
  bs.foldr (fun b acc => b + 256 * acc) 0

/-- Little-endian base-256 digits of a natural number, with enough fuel;
0 gives []. -/
def natToBytesLEAux : Nat → Nat → List Nat
  | 0, _ => []
  | fuel + 1, n => if n = 0 then [] else n % 256 :: natToBytesLEAux fuel (n / 256)

/-- Minimal big-endian byte representation of a natural number (0 gives []). -/
def natToBytesBE (n : Nat) : List Nat :=
  (natToBytesLEAux n n).reverse

/-! ## Borsh deserialization of AuctionState (src/main.rs lines 101-112, 179-194) -/

/-- The AuctionState account record, from the Rust struct with
borsh(BorshDeserialize) derive: u8, [u8;32], Pubkey(32), u64, u64,
Pubkey(32), u64, u64, u64. -/
structure AuctionState where
  bump : Nat
  hash : List Nat
  initializer : List Nat
  close_epoch : Nat
  amount_out_min : Nat
  winner : List Nat
  amount_promised : Nat
  valid_from : Nat
  seq_msg : Nat
deriving DecidableEq, Repr

/-- Borsh reader for a fixed number of raw bytes: fails when the buffer is
too short, otherwise yields the bytes and the remaining buffer. -/
def readBytes (n : Nat) (d : List Nat) : Option (List Nat × List Nat) :=
  if n ≤ d.length then some (d.take n, d.drop n) else none

/-- Borsh reader for a u8: one byte. -/
def readU8 (d : List Nat) : Option (Nat × List Nat) :=
  match d with
  | [] => none
  | b :: rest => some (b, rest)

/-- Borsh reader for a u64: eight little-endian bytes. -/
def readU64 (d : List Nat) : Option (Nat × List Nat) :=
  match readBytes 8 d with
  | some (bs, rest) => some (leU64 bs, rest)
  | none => none

/-- Sequential Borsh deserialization of the nine AuctionState fields,
returning the decoded record and the unconsumed suffix. -/
def auctionStateDeser (d : List Nat) : Option (AuctionState × List Nat) :=
  match readU8 d with
  | none => none
  | some (bump, r1) =>
    match readBytes 32 r1 with
    | none => none
    | some (hash, r2) =>
      match readBytes 32 r2 with
      | none => none
      | some (initializer, r3) =>
        match readU64 r3 with
        | none => none
        | some (close_epoch, r4) =>
          match readU64 r4 with
          | none => none
          | some (amount_out_min, r5) =>
            match readBytes 32 r5 with
            | none => none
            | some (winner, r6) =>
              match readU64 r6 with
              | none => none
              | some (amount_promised, r7) =>
                match readU64 r7 with
                | none => none
                | some (valid_from, r8) =>
                  match readU64 r8 with
                  | none => none
                  | some (seq_msg, r9) =>
                    some (⟨bump, hash, initializer, close_epoch, amount_out_min,
                           winner, amount_promised, valid_from, seq_msg⟩, r9)

/-- Borsh try_from_slice: deserialize and require that the whole buffer is
consumed, as borsh does. -/
def auctionStateTryFromSlice (d : List Nat) : Option AuctionState :=
  match auctionStateDeser d with
  | some (s, []) => some s
  | some (_, _ :: _) => none
  | none => none

/-- The decode policy of get_and_parse_auction_state: for payloads of at
least 8 bytes first try to deserialize after skipping an 8-byte
discriminator, falling back to offset 0; shorter payloads are deserialized
from offset 0 directly. -/
def decodeAuctionStateData (d : List Nat) : Option AuctionState :=
  if 8 ≤ d.length then
    match auctionStateTryFromSlice (d.drop 8) with
    | some s => some s
    | none => auctionStateTryFromSlice d
  else auctionStateTryFromSlice d

/-- The AuctionState whose fields sit at the fixed Borsh offsets of a
137-byte buffer: bump at 0, hash at 1, initializer at 33, close_epoch at
65, amount_out_min at 73, winner at 81, amount_promised at 113,
valid_from at 121, seq_msg at 129. -/
def auctionStateOfBytes (d : List Nat) : AuctionState :=
  ⟨d.headD 0,
   (d.drop 1).take 32,
   (d.drop 33).take 32,
   leU64 ((d.drop 65).take 8),
   leU64 ((d.drop 73).take 8),
   (d.drop 81).take 32,
   leU64 ((d.drop 113).take 8),
   leU64 ((d.drop 121).take 8),
   leU64 ((d.drop 129).take 8)⟩

theorem readBytes_drop (n k m : Nat) (t : List Nat) (h : k + n ≤ t.length)
    (hm : m = k + n) :
    readBytes n (t.drop k) = some ((t.drop k).take n, t.drop m) := by
  rw [readBytes, if_pos (by rw [List.length_drop]; omega), List.drop_drop, hm]

theorem readBytes_drop_fail (n k : Nat) (t : List Nat) (hn : 0 < n)
    (h : t.length < k + n) :
    readBytes n (t.drop k) = none := by
  rw [readBytes, if_neg]
  rw [List.length_drop]; omega

theorem readU64_drop (k m : Nat) (t : List Nat) (h : k + 8 ≤ t.length)
    (hm : m = k + 8) :
    readU64 (t.drop k) = some (leU64 ((t.drop k).take 8), t.drop m) := by
  rw [readU64, readBytes_drop 8 k m t (by omega) (by omega)]

theorem readU64_drop_fail (k : Nat) (t : List Nat) (h : t.length < k + 8) :
    readU64 (t.drop k) = none := by
  rw [readU64, readBytes_drop_fail 8 k t (by omega) (by omega)]

theorem auctionStateDeser_eq (d : List Nat) :
    auctionStateDeser d =
      if 137 ≤ d.length then some (auctionStateOfBytes d, d.drop 137) else none := by
  cases d with
  | nil => rfl
  | cons b t =>
    have hl : (b :: t).length = t.length + 1 := List.length_cons b t
    by_cases h : 137 ≤ (b :: t).length
    · have ht : 136 ≤ t.length := by omega
      have r1 : (b :: t).drop 1 = t := rfl
      have r33 : (b :: t).drop 33 = t.drop 32 := rfl
      have r65 : (b :: t).drop 65 = t.drop 64 := rfl
      have r73 : (b :: t).drop 73 = t.drop 72 := rfl
      have r81 : (b :: t).drop 81 = t.drop 80 := rfl
      have r113 : (b :: t).drop 113 = t.drop 112 := rfl
      have r121 : (b :: t).drop 121 = t.drop 120 := rfl
      have r129 : (b :: t).drop 129 = t.drop 128 := rfl
      have r137 : (b :: t).drop 137 = t.drop 136 := rfl
      have e2 : readBytes 32 t = some (t.take 32, t.drop 32) := by
        rw [readBytes, if_pos (by omega)]
      have e3 := readBytes_drop 32 32 64 t (by omega) (by norm_num)
      have e4 := readU64_drop 64 72 t (by omega) (by norm_num)
      have e5 := readU64_drop 72 80 t (by omega) (by norm_num)
      have e6 := readBytes_drop 32 80 112 t (by omega) (by norm_num)
      have e7 := readU64_drop 112 120 t (by omega) (by norm_num)
      have e8 := readU64_drop 120 128 t (by omega) (by norm_num)
      have e9 := readU64_drop 128 136 t (by omega) (by norm_num)
      rw [if_pos h]
      simp only [auctionStateDeser, readU8, e2, e3, e4, e5, e6, e7, e8, e9,
                 auctionStateOfBytes, r1, r33, r65, r73, r81, r113, r121, r129,
                 r137, List.headD_cons]
    · have ht : t.length < 136 := by omega
      rw [if_neg h]
      by_cases h1 : 32 ≤ t.length
      · have e2 : readBytes 32 t = some (t.take 32, t.drop 32) := by
          rw [readBytes, if_pos (by omega)]
        by_cases h2 : 64 ≤ t.length
        · have e3 := readBytes_drop 32 32 64 t (by omega) (by norm_num)
          by_cases h3 : 72 ≤ t.length
          · have e4 := readU64_drop 64 72 t (by omega) (by norm_num)
            by_cases h4 : 80 ≤ t.length
            · have e5 := readU64_drop 72 80 t (by omega) (by norm_num)
              by_cases h5 : 112 ≤ t.length
              · have e6 := readBytes_drop 32 80 112 t (by omega) (by norm_num)
                by_cases h6 : 120 ≤ t.length
                · have e7 := readU64_drop 112 120 t (by omega) (by norm_num)
                  by_cases h7 : 128 ≤ t.length
                  · have e8 := readU64_drop 120 128 t (by omega) (by norm_num)
                    have e9 := readU64_drop_fail 128 t (by omega)
                    simp only [auctionStateDeser, readU8, e2, e3, e4, e5, e6, e7,
                               e8, e9]
                  · have e8 := readU64_drop_fail 120 t (by omega)
                    simp only [auctionStateDeser, readU8, e2, e3, e4, e5, e6, e7,
                               e8]
                · have e7 := readU64_drop_fail 112 t (by omega)
                  simp only [auctionStateDeser, readU8, e2, e3, e4, e5, e6, e7]
              · have e6 := readBytes_drop_fail 32 80 t (by omega) (by omega)
                simp only [auctionStateDeser, readU8, e2, e3, e4, e5, e6]
            · have e5 := readU64_drop_fail 72 t (by omega)
              simp only [auctionStateDeser, readU8, e2, e3, e4, e5]
          · have e4 := readU64_drop_fail 64 t (by omega)
            simp only [auctionStateDeser, readU8, e2, e3, e4]
        · have e3 := readBytes_drop_fail 32 32 t (by omega) (by omega)
          simp only [auctionStateDeser, readU8, e2, e3]
      · have e2 : readBytes 32 t = none := by
          rw [readBytes, if_neg (by omega)]
        simp only [auctionStateDeser, readU8, e2]

theorem auctionStateTryFromSlice_eq (d : List Nat) :
    auctionStateTryFromSlice d =
      if d.length = 137 then some (auctionStateOfBytes d) else none := by
  rw [auctionStateTryFromSlice, auctionStateDeser_eq]
  by_cases h : 137 ≤ d.length
  · rw [if_pos h]
    by_cases h2 : d.length = 137
    · rw [if_pos h2]
      have : d.drop 137 = [] := by
        rw [List.drop_eq_nil_iff]; omega
      rw [this]
    · rw [if_neg h2]
      have : d.drop 137 ≠ [] := by
        rw [Ne, List.drop_eq_nil_iff]; omega
      cases hd : d.drop 137 with
      | nil => exact absurd hd this
      | cons x xs => rfl
  · rw [if_neg h, if_neg (by omega)]

/-! ## Hex, byte-list and base58 parsing (src/main.rs lines 372-530) -/

/-- Value of a single hexadecimal digit, accepting both cases. -/
def hexDigitVal (c : Char) : Option Nat :=
  if '0' ≤ c ∧ c ≤ '9' then some (c.toNat - '0'.toNat)
  else if 'a' ≤ c ∧ c ≤ 'f' then some (c.toNat - 'a'.toNat + 10)
  else if 'A' ≤ c ∧ c ≤ 'F' then some (c.toNat - 'A'.toNat + 10)
  else none

/-- hex::decode on a character list: consumes digit pairs, fails on an odd
number of digits or an invalid digit. -/
def hexDecodeList : List Char → Option (List Nat)
  | [] => some []
  | [_] => none
  | c1 :: c2 :: rest =>
    match hexDigitVal c1, hexDigitVal c2, hexDecodeList rest with
    | some hi, some lo, some bs => some ((16 * hi + lo) :: bs)
    | _, _, _ => none

/-- hex::decode on a string. -/
def hexDecode (s : String) : Option (List Nat) :=
  hexDecodeList s.data

/-- u8::from_str: optional leading plus sign, then decimal digits only,
non-empty, value at most 255. -/
def parseU8Str (s : String) : Option Nat :=
  let cs := match s.data with
    | '+' :: rest => rest
    | cs => cs
  if cs = [] then none
  else if cs.all (fun c => c.isDigit) then
    let v := cs.foldl (fun acc c => acc * 10 + (c.toNat - '0'.toNat)) 0
    if v ≤ 255 then some v else none
  else none

/-- The comma-separated byte-list input format: split on commas, trim each
token, parse as u8. -/
def parseByteListAux : List String → Option (List Nat)
  | [] => some []
  | tok :: rest =>
    match parseU8Str tok.trim, parseByteListAux rest with
    | some b, some bs => some (b :: bs)
    | _, _ => none

def parseByteList (s : String) : Option (List Nat) :=
  parseByteListAux (s.splitOn ",")

/-- Outcome of a conversion subcommand: a structured error (Err return),
a fatal abort (panic), or a byte result. -/
inductive ConvRes where
  | ok (bs : List Nat)
  | err
  | panicked
deriving DecidableEq, Repr

/-- str::to_lowercase, character by character. -/
def strToLower (s : String) : String :=
  String.mk (s.data.map Char.toLower)

/-- List-level prefix test. -/
def listIsPrefixOf : List Char → List Char → Bool
  | [], _ => true
  | _ :: _, [] => false
  | c :: cs, d :: ds => c == d && listIsPrefixOf cs ds

/-- str::starts_with for a string pattern. -/
def strStartsWith (s pat : String) : Bool :=
  listIsPrefixOf pat.data s.data

/-- Shared input parsing of to_bytes32 / from_bytes32: hex (with optional
0x marker stripped) or comma-separated decimal bytes; any other format
selector is a structured error. -/
def parseInputBytes (input format : String) : ConvRes :=
  if strToLower format = "hex" then
    let hexStr := if strStartsWith input "0x" then String.mk (input.data.drop 2)
      else input
    match hexDecode hexStr with
    | some bs => .ok bs
    | none => .err
  else if strToLower format = "bytes" then
    match parseByteList input with
    | some bs => .ok bs
    | none => .err
  else .err

/-- to_bytes32 (src/main.rs lines 404-437): parse the input, then panic
unless the decoded length is exactly 32; on success the decoded bytes are
returned unchanged. -/
def to_bytes32 (input format : String) : ConvRes :=
  match parseInputBytes input format with
  | .ok bs => if bs.length ≠ 32 then .panicked else .ok bs
  | .err => .err
  | .panicked => .panicked

/-- from_bytes32 (src/main.rs lines 468-530): parse the input, panic if it
exceeds 32 bytes, otherwise zero-left-pad to exactly 32 bytes; an invalid
output format selector is a structured error. -/
def from_bytes32 (input inputFormat outputFormat : String) : ConvRes :=
  match parseInputBytes input inputFormat with
  | .ok bs =>
    if 32 < bs.length then .panicked
    else
      let bytes32 := List.replicate (32 - bs.length) 0 ++ bs
      if strToLower outputFormat = "hex" then .ok bytes32
      else if strToLower outputFormat = "bytes" then .ok bytes32
      else .err
  | .err => .err
  | .panicked => .panicked

/-- The bs58 alphabet (Bitcoin variant used by the bs58 crate default). -/
def b58Alphabet : List Char :=
  "123456789ABCDEFGHJKLMNPQRSTUVWXYZabcdefghijkmnopqrstuvwxyz".data

/-- Digit value of a base58 character, none for characters outside the
alphabet. -/
def b58DigitVal (c : Char) : Option Nat :=
  List.indexOf? c b58Alphabet

/-- Digit values of a whole character list, none if any is invalid. -/
def b58Digits : List Char → Option (List Nat)
  | [] => some []
  | c :: rest =>
    match b58DigitVal c, b58Digits rest with
    | some d, some ds => some (d :: ds)
    | _, _ => none

/-- bs58::decode(..).into_vec(): one leading zero byte per leading '1'
character, followed by the big-endian bytes of the base-58 value. -/
def bs58Decode (s : String) : Option (List Nat) :=
  match b58Digits s.data with
  | none => none
  | some ds =>
    let zeros := (ds.takeWhile (fun d => d = 0)).length
    let n := ds.foldl (fun acc d => acc * 58 + d) 0
    some (List.replicate zeros 0 ++ natToBytesBE n)

/-! ## Mayan API response (src/main.rs lines 92-99, 124-150) -/

/-- A JSON value, as produced by parsing a response body. -/
inductive Json where
  | str (s : String)
  | num (n : Int)
  | bool (b : Bool)
  | null
  | arr (xs : List Json)
  | obj (fields : List (String × Json))

/-- The MayanOrderResponse record: serde requires all three fields
(auctionStateAddr via rename, id, status), each a JSON string. -/
structure MayanOrderResponse where
  auction_state_addr : String
  id : String
  status : String
deriving DecidableEq, Repr

/-- Serde struct visitor over the object entries: named fields are filled
at most once (a duplicate is an error), must hold strings, unknown keys
are ignored and all three fields must be present at the end. -/
def mayanFieldsVisit : List (String × Json) → Option String → Option String →
    Option String → Option MayanOrderResponse
  | [], sa, si, sst =>
    match sa, si, sst with
    | some a, some i, some st => some ⟨a, i, st⟩
    | _, _, _ => none
  | (k, v) :: rest, a, i, st =>
    if k = "auctionStateAddr" then
      match a with
      | some _ => none
      | none =>
        match v with
        | Json.str s => mayanFieldsVisit rest (some s) i st
        | _ => none
    else if k = "id" then
      match i with
      | some _ => none
      | none =>
        match v with
        | Json.str s => mayanFieldsVisit rest a (some s) st
        | _ => none
    else if k = "status" then
      match st with
      | some _ => none
      | none =>
        match v with
        | Json.str s => mayanFieldsVisit rest a i (some s)
        | _ => none
    else mayanFieldsVisit rest a i st

/-- serde_json deserialization of MayanOrderResponse: the body must be an
object and the visitor must succeed. -/
def parseMayanOrder (j : Json) : Option MayanOrderResponse :=
  match j with
  | .obj fields => mayanFieldsVisit fields none none none
  | _ => none

/-- The observable outcome of the HTTP GET: the send itself may fail, or a
response arrives with a status code and a body that either is valid JSON
or not. -/
inductive HttpOutcome where
  | sendFailure
  | resp (status : Nat) (body : Option Json)

/-- Result of get_auction_state_addr. -/
inductive GasaResult where
  | ok (addr : String)
  | sendErr
  | statusErr (code : Nat)
  | parseErr
deriving DecidableEq, Repr

/-- get_auction_state_addr (src/main.rs lines 124-150): propagate a send
failure, reject a non-2xx status, parse the JSON body into a
MayanOrderResponse and return its auction_state_addr field. -/
def get_auction_state_addr (h : HttpOutcome) : GasaResult :=
  match h with
  | .sendFailure => .sendErr
  | .resp status body =>
    if ¬ (200 ≤ status ∧ status ≤ 299) then .statusErr status
    else
      match body with
      | none => .parseErr
      | some j =>
        match parseMayanOrder j with
        | none => .parseErr
        | some r => .ok r.auction_state_addr

/-! ## Bid history reconstruction (src/main.rs lines 114-122, 199-280) -/

/-- A recorded bid, from the Rust BidEntry struct. -/
structure BidEntry where
  signature : String
  bidder : String
  bid_amount : Nat
  slot : Nat
  timestamp : Option Int
  failed : Bool
deriving DecidableEq, Repr

/-- An instruction of a parsed transaction message: either the
partially-decoded parsed form carrying opaque base58 data, or any other
shape. -/
inductive UiInstr where
  | partDecoded (data : String)
  | otherInstr
deriving DecidableEq, Repr

/-- A transaction message: the parsed variant with account keys and
instructions, or any other variant. -/
inductive UiMsg where
  | parsed (accountKeys : List String) (instrs : List UiInstr)
  | raw
deriving DecidableEq, Repr

/-- An encoded transaction: the JSON variant holding a message, or any
unsupported encoding. -/
inductive EncTx where
  | json (msg : UiMsg)
  | other
deriving DecidableEq, Repr

/-- Transaction execution metadata: whether meta.err is set and the
optional log message list. -/
structure TxMeta where
  err : Bool
  logMessages : Option (List String)
deriving DecidableEq, Repr

/-- A fetched transaction: optional metadata plus the encoded
transaction. -/
structure FetchedTx where
  meta : Option TxMeta
  tx : EncTx
deriving DecidableEq, Repr

/-- One signature-listing entry together with the oracle outcomes of
processing it: whether the signature string parses, and the result of the
RPC transaction fetch (none models a fetch failure). -/
structure TxRecord where
  signature : String
  slot : Nat
  blockTime : Option Int
  sigOk : Bool
  fetched : Option FetchedTx
deriving DecidableEq, Repr

/-- The literal log marker recognizing bid transactions. -/
def bidMarker : String := "Program log: Instruction: Bid"

/-- Pattern occurrence at any suffix of the character list. -/
def containsAux (pat : List Char) : List Char → Bool
  | [] => listIsPrefixOf pat []
  | c :: rest => listIsPrefixOf pat (c :: rest) || containsAux pat rest

/-- Rust str::contains with a string pattern: the pattern is a prefix of
some suffix of the string. -/
def strContains (s pat : String) : Bool :=
  containsAux pat.data s.data

/-- The bid-marker test on transaction metadata: some log message contains
the marker; absent log messages count as no marker. -/
def logValid (m : TxMeta) : Bool :=
  match m.logMessages with
  | some logs => logs.any (fun l => strContains l bidMarker)
  | none => false

/-- Marker presence for a whole transaction record (requires a fetched
transaction with metadata). -/
def txHasBidMarker (t : TxRecord) : Bool :=
  match t.fetched with
  | some f =>
    match f.meta with
    | some m => logValid m
    | none => false
  | none => false

/-- Result of processing one signature: continue with an updated bid
accumulator, abort the whole call with an error, or panic. -/
inductive StepRes where
  | cont (acc : List BidEntry)
  | fail
  | panicked
deriving DecidableEq, Repr

/-- The per-signature body of the get_bid_history loop (src/main.rs lines
211-274): signature parse and fetch failures are errors; missing metadata
is an error; transactions without the bid log marker are skipped;
unsupported encodings, unparsed messages and a non-partially-decoded
instruction in slot 2 are skipped; a missing instruction index 2, a missing
account key 0, a failing base58 decode and data shorter than 8 bytes all
panic; otherwise a BidEntry is appended. -/
def stepTx (t : TxRecord) (acc : List BidEntry) : StepRes :=
  if t.sigOk = false then .fail
  else
    match t.fetched with
    | none => .fail
    | some f =>
      match f.meta with
      | none => .fail
      | some m =>
        if logValid m = false then .cont acc
        else
          match f.tx with
          | .other => .cont acc
          | .json msg =>
            match msg with
            | .raw => .cont acc
            | .parsed accountKeys instrs =>
              match instrs[2]? with
              | none => .panicked
              | some UiInstr.otherInstr => .cont acc
              | some (UiInstr.partDecoded dataStr) =>
                match accountKeys[0]? with
                | none => .panicked
                | some bidder =>
                  match bs58Decode dataStr with
                  | none => .panicked
                  | some data =>
                    if data.length < 8 then .panicked
                    else
                      .cont (acc ++ [⟨t.signature, bidder,
                        leU64 (data.drop (data.length - 8)), t.slot,
                        t.blockTime, m.err⟩])

/-- Result of the whole signature loop before sorting. -/
inductive CollectRes where
  | done (acc : List BidEntry)
  | fail
  | panicked
deriving DecidableEq, Repr

/-- Sequential processing of the (at most 100) signature records. -/
def runCollect : List TxRecord → List BidEntry → CollectRes
  | [], acc => .done acc
  | t :: ts, acc =>
    match stepTx t acc with
    | .cont a => runCollect ts a
    | .fail => .fail
    | .panicked => .panicked

/-- The slot order used by the final bids.sort_by call. -/
def slotLE (a b : BidEntry) : Prop := a.slot ≤ b.slot

instance : DecidableRel slotLE := fun a b => Nat.decLe a.slot b.slot

instance : IsTotal BidEntry slotLE := ⟨fun a b => Nat.le_total a.slot b.slot⟩

instance : IsTrans BidEntry slotLE := ⟨fun _ _ _ => Nat.le_trans⟩

/-- The stable ascending-by-slot sort performed by bids.sort_by. -/
def sortBySlot (bids : List BidEntry) : List BidEntry :=
  List.insertionSort slotLE bids

/-- Observable outcome of get_bid_history. -/
inductive RunOutcome where
  | ok (bids : List BidEntry)
  | error
  | panicked
deriving DecidableEq, Repr

/-- get_bid_history (src/main.rs lines 199-280): fail if the address does
not parse or the signature listing fails; otherwise process the first 100
signatures sequentially and sort the collected bids by slot. -/
def get_bid_history (addrOk : Bool) (listing : Option (List TxRecord)) :
    RunOutcome :=
  if addrOk = false then .error
  else
    match listing with
    | none => .error
    | some txs =>
      match runCollect (txs.take 100) [] with
      | .done acc => .ok (sortBySlot acc)
      | .fail => .error
      | .panicked => .panicked

/-! ## Supporting lemmas about the bid-history loop -/

theorem stepTx_fail_of_fetch (t : TxRecord) (acc : List BidEntry)
    (hyp : t.fetched = none ∨ ∃ f, t.fetched = some f ∧ f.meta = none) :
    stepTx t acc = .fail := by
  by_cases hs : t.sigOk = false
  · simp [stepTx, hs]
  · rcases hyp with hf | ⟨f, hf, hm⟩
    · simp [stepTx, hs, hf]
    · simp [stepTx, hs, hf, hm]

theorem stepTx_cont_inv (t : TxRecord) (acc a : List BidEntry)
    (h : stepTx t acc = .cont a) :
    t.sigOk = true ∧ ∃ f m, t.fetched = some f ∧ f.meta = some m := by
  by_cases hs : t.sigOk = false
  · simp [stepTx, hs] at h
  · have hs' : t.sigOk = true := by revert hs; cases t.sigOk <;> simp
    refine ⟨hs', ?_⟩
    cases hf : t.fetched with
    | none => simp [stepTx, hs, hf] at h
    | some f =>
      cases hm : f.meta with
      | none => simp [stepTx, hs, hf, hm] at h
      | some m => exact ⟨f, m, rfl, hm⟩

theorem stepTx_cont_acc (t : TxRecord) (acc a : List BidEntry)
    (h : stepTx t acc = .cont a) :
    a = acc ∨ ∃ e, a = acc ++ [e] ∧ e.signature = t.signature ∧
      txHasBidMarker t = true := by
  by_cases hs : t.sigOk = false
  · simp [stepTx, hs] at h
  · have hs' : t.sigOk = true := by revert hs; cases t.sigOk <;> simp
    cases hf : t.fetched with
    | none => simp [stepTx, hs, hf] at h
    | some f =>
      cases hm : f.meta with
      | none => simp [stepTx, hs, hf, hm] at h
      | some m =>
        by_cases hv : logValid m = false
        · simp [stepTx, hs, hf, hm, hv] at h
          exact Or.inl h.symm
        · have hv' : logValid m = true := by revert hv; cases logValid m <;> simp
          have hmk : txHasBidMarker t = true := by
            simp [txHasBidMarker, hf, hm, hv']
          cases htx : f.tx with
          | other =>
            simp [stepTx, hs, hf, hm, hv, htx] at h
            exact Or.inl h.symm
          | json msg =>
            cases msg with
            | raw =>
              simp [stepTx, hs, hf, hm, hv, htx] at h
              exact Or.inl h.symm
            | parsed ks instrs =>
              cases h2 : instrs[2]? with
              | none => simp [stepTx, hs, hf, hm, hv, htx, h2] at h
              | some instr =>
                cases instr with
                | otherInstr =>
                  simp [stepTx, hs, hf, hm, hv, htx, h2] at h
                  exact Or.inl h.symm
                | partDecoded ds =>
                  cases hk : ks[0]? with
                  | none => simp [stepTx, hs, hf, hm, hv, htx, h2, hk] at h
                  | some bidder =>
                    cases hd : bs58Decode ds with
                    | none =>
                      simp [stepTx, hs, hf, hm, hv, htx, h2, hk, hd] at h
                    | some data =>
                      by_cases hlen : data.length < 8
                      · simp [stepTx, hs, hf, hm, hv, htx, h2, hk, hd, hlen] at h
                      · simp [stepTx, hs, hf, hm, hv, htx, h2, hk, hd, hlen] at h
                        exact Or.inr ⟨_, h.symm, rfl, hmk⟩

theorem runCollect_append (xs ys : List TxRecord) (acc : List BidEntry) :
    runCollect (xs ++ ys) acc =
      match runCollect xs acc with
      | .done a => runCollect ys a
      | .fail => .fail
      | .panicked => .panicked := by
  induction xs generalizing acc with
  | nil => rfl
  | cons t ts ih =>
    rw [List.cons_append]
    show (match stepTx t acc with
          | .cont a => runCollect (ts ++ ys) a
          | .fail => .fail
          | .panicked => .panicked) = _
    cases hstep : stepTx t acc with
    | cont a => simp [runCollect, hstep, ih]
    | fail => simp [runCollect, hstep]
    | panicked => simp [runCollect, hstep]

theorem runCollect_done_inv (ts : List TxRecord) :
    ∀ (acc a : List BidEntry), runCollect ts acc = .done a →
      ∀ t ∈ ts, t.sigOk = true ∧ ∃ f m, t.fetched = some f ∧ f.meta = some m := by
  induction ts with
  | nil => intro acc a _ t ht; simp at ht
  | cons t0 ts ih =>
    intro acc a h t ht
    rw [runCollect] at h
    cases hstep : stepTx t0 acc with
    | cont a1 =>
      rw [hstep] at h
      rcases List.mem_cons.mp ht with rfl | hmem
      · exact stepTx_cont_inv t acc a1 hstep
      · exact ih a1 a h t hmem
    | fail => rw [hstep] at h; simp at h
    | panicked => rw [hstep] at h; simp at h

theorem runCollect_done_mem (ts : List TxRecord) :
    ∀ (acc a : List BidEntry), runCollect ts acc = .done a →
      ∀ b ∈ a, b ∈ acc ∨ ∃ t ∈ ts, txHasBidMarker t = true ∧
        b.signature = t.signature := by
  induction ts with
  | nil =>
    intro acc a h b hb
    rw [runCollect] at h
    cases h
    exact Or.inl hb
  | cons t0 ts ih =>
    intro acc a h b hb
    rw [runCollect] at h
    cases hstep : stepTx t0 acc with
    | cont a1 =>
      rw [hstep] at h
      rcases ih a1 a h b hb with hacc | ⟨t, htmem, hmk, hsig⟩
      · rcases stepTx_cont_acc t0 acc a1 hstep with rfl | ⟨e, rfl, hesig, hmk0⟩
        · exact Or.inl hacc
        · rcases List.mem_append.mp hacc with hacc | he
          · exact Or.inl hacc
          · have : b = e := by simpa using he
            subst this
            exact Or.inr ⟨t0, List.mem_cons_self t0 ts, hmk0, hesig⟩
      · exact Or.inr ⟨t, List.mem_cons_of_mem t0 htmem, hmk, hsig⟩
    | fail => rw [hstep] at h; simp at h
    | panicked => rw [hstep] at h; simp at h

/-! ## Stability of the slot sort -/

theorem orderedInsert_filter_slot (a : BidEntry) (l : List BidEntry) (s : Nat) :
    (List.orderedInsert slotLE a l).filter (fun b => b.slot == s) =
      if a.slot == s then a :: l.filter (fun b => b.slot == s)
      else l.filter (fun b => b.slot == s) := by
  induction l with
  | nil =>
    by_cases has : a.slot == s <;> simp [List.orderedInsert, List.filter, has]
  | cons b l ih =>
    rw [List.orderedInsert]
    by_cases hab : slotLE a b
    · rw [if_pos hab]
      by_cases has : a.slot == s <;>
        by_cases hbs : b.slot == s <;>
          simp [List.filter_cons, has, hbs]
    · rw [if_neg hab]
      by_cases hbs : b.slot == s
      · have has : (a.slot == s) = false := by
          by_contra hcon
          have ha : a.slot = s := by
            have h1 : (a.slot == s) = true := by
              revert hcon; cases a.slot == s <;> simp
            simpa using h1
          have hb : b.slot = s := by simpa using hbs
          exact hab (show slotLE a b from by rw [slotLE, ha, hb])
        simp [List.filter_cons, hbs, has, ih]
      · simp [List.filter_cons, hbs, ih]

theorem sortBySlot_filter (l : List BidEntry) (s : Nat) :
    (sortBySlot l).filter (fun b => b.slot == s) =
      l.filter (fun b => b.slot == s) := by
  induction l with
  | nil => rfl
  | cons a l ih =>
    rw [sortBySlot, List.insertionSort, orderedInsert_filter_slot]
    rw [sortBySlot] at ih
    by_cases has : a.slot == s <;> simp [List.filter_cons, has, ih]

theorem sortBySlot_sorted (l : List BidEntry) :
    (sortBySlot l).Sorted slotLE :=
  List.sorted_insertionSort slotLE l

theorem sortBySlot_perm (l : List BidEntry) : (sortBySlot l).Perm l :=
  List.perm_insertionSort slotLE l

/-! ## Characterization of the account decode policy -/

theorem decodeAuctionStateData_eq (d : List Nat) :
    decodeAuctionStateData d =
      if d.length = 145 then some (auctionStateOfBytes (d.drop 8))
      else if d.length = 137 then some (auctionStateOfBytes d)
      else none := by
  rw [decodeAuctionStateData]
  by_cases h8 : 8 ≤ d.length
  · rw [if_pos h8, auctionStateTryFromSlice_eq, auctionStateTryFromSlice_eq,
        List.length_drop]
    by_cases h145 : d.length = 145
    · rw [if_pos (by omega), if_pos h145]
    · rw [if_neg (by omega), if_neg h145]
  · rw [if_neg h8, auctionStateTryFromSlice_eq]
    simp only [if_neg (show ¬ d.length = 137 by omega),
               if_neg (show ¬ d.length = 145 by omega)]

/-! ## Completeness of the MayanOrderResponse field visitor -/

/-- State of one named field during the serde visit: either already filled
with its value and no further occurrence remains, or unfilled with exactly
one occurrence remaining, holding a JSON string. -/
def slotState (fields : List (String × Json)) (name : String)
    (slot : Option String) (v : String) : Prop :=
  (slot = some v ∧ fields.filter (fun kv => kv.1 == name) = []) ∨
  (slot = none ∧
    fields.filter (fun kv => kv.1 == name) = [(name, Json.str v)])

theorem slotState_cons_other (k : String) (v : Json)
    (rest : List (String × Json)) (name w : String) (slot : Option String)
    (hk : ¬ k = name) (h : slotState ((k, v) :: rest) name slot w) :
    slotState rest name slot w := by
  rcases h with ⟨h1, h2⟩ | ⟨h1, h2⟩
  · rw [List.filter_cons, if_neg (by simp [hk])] at h2
    exact Or.inl ⟨h1, h2⟩
  · rw [List.filter_cons, if_neg (by simp [hk])] at h2
    exact Or.inr ⟨h1, h2⟩

theorem slotState_cons_match (k : String) (v : Json)
    (rest : List (String × Json)) (name w : String) (slot : Option String)
    (hk : k = name) (h : slotState ((k, v) :: rest) name slot w) :
    v = Json.str w ∧ slot = none ∧
      rest.filter (fun kv => kv.1 == name) = [] := by
  subst hk
  rcases h with ⟨h1, h2⟩ | ⟨h1, h2⟩
  · rw [List.filter_cons, if_pos (by simp)] at h2
    exact absurd h2 (List.cons_ne_nil _ _)
  · rw [List.filter_cons, if_pos (by simp)] at h2
    injection h2 with hpair htail
    injection hpair with _ hv
    exact ⟨hv, h1, htail⟩

theorem mayanFieldsVisit_complete (fields : List (String × Json)) :
    ∀ (a i st : String) (sa si sst : Option String),
      slotState fields "auctionStateAddr" sa a →
      slotState fields "id" si i →
      slotState fields "status" sst st →
      mayanFieldsVisit fields sa si sst = some ⟨a, i, st⟩ := by
  induction fields with
  | nil =>
    intro a i st sa si sst ha hi hst
    have ha' : sa = some a := by
      rcases ha with ⟨h1, _⟩ | ⟨_, h2⟩
      · exact h1
      · exact absurd h2.symm (List.cons_ne_nil _ _)
    have hi' : si = some i := by
      rcases hi with ⟨h1, _⟩ | ⟨_, h2⟩
      · exact h1
      · exact absurd h2.symm (List.cons_ne_nil _ _)
    have hst' : sst = some st := by
      rcases hst with ⟨h1, _⟩ | ⟨_, h2⟩
      · exact h1
      · exact absurd h2.symm (List.cons_ne_nil _ _)
    subst ha' hi' hst'
    rfl
  | cons kv rest ih =>
    obtain ⟨k, v⟩ := kv
    intro a i st sa si sst ha hi hst
    by_cases hk1 : k = "auctionStateAddr"
    · obtain ⟨rfl, rfl, hrest⟩ := slotState_cons_match k v rest _ a sa hk1 ha
      subst hk1
      exact ih a i st (some a) si sst (Or.inl ⟨rfl, hrest⟩)
        (slotState_cons_other _ _ _ _ _ _ (by decide) hi)
        (slotState_cons_other _ _ _ _ _ _ (by decide) hst)
    · by_cases hk2 : k = "id"
      · obtain ⟨rfl, rfl, hrest⟩ := slotState_cons_match k v rest _ i si hk2 hi
        subst hk2
        exact ih a i st sa (some i) sst
          (slotState_cons_other _ _ _ _ _ _ (by decide) ha)
          (Or.inl ⟨rfl, hrest⟩)
          (slotState_cons_other _ _ _ _ _ _ (by decide) hst)
      · by_cases hk3 : k = "status"
        · obtain ⟨rfl, rfl, hrest⟩ :=
            slotState_cons_match k v rest _ st sst hk3 hst
          subst hk3
          exact ih a i st sa si (some st)
            (slotState_cons_other _ _ _ _ _ _ (by decide) ha)
            (slotState_cons_other _ _ _ _ _ _ (by decide) hi)
            (Or.inl ⟨rfl, hrest⟩)
        · show (if k = "auctionStateAddr" then _ else
              if k = "id" then _ else if k = "status" then _ else
                mayanFieldsVisit rest sa si sst) = some ⟨a, i, st⟩
          rw [if_neg hk1, if_neg hk2, if_neg hk3]
          exact ih a i st sa si sst
            (slotState_cons_other _ _ _ _ _ _ hk1 ha)
            (slotState_cons_other _ _ _ _ _ _ hk2 hi)
            (slotState_cons_other _ _ _ _ _ _ hk3 hst)

/-! ## Claim theorems -/

/-- Claim C1: in get_and_parse_auction_state, for every fetched payload of
at least 8 bytes, decoding first attempts deserialization after skipping
the first 8 bytes, falls back to offset 0 if that fails, and errors
exactly when both attempts fail; a payload under 8 bytes decodes from
offset 0; a buffer exactly one 8-byte discriminator longer than the fixed
137-byte layout decodes successfully via the skip-8 path. -/
theorem claim_C1_decode_policy :
    (∀ d : List Nat, 8 ≤ d.length → ∀ s,
        auctionStateTryFromSlice (d.drop 8) = some s →
        decodeAuctionStateData d = some s) ∧
    (∀ d : List Nat, 8 ≤ d.length →
        auctionStateTryFromSlice (d.drop 8) = none →
        decodeAuctionStateData d = auctionStateTryFromSlice d) ∧
    (∀ d : List Nat, 8 ≤ d.length →
        (decodeAuctionStateData d = none ↔
          auctionStateTryFromSlice (d.drop 8) = none ∧
            auctionStateTryFromSlice d = none)) ∧
    (∀ d : List Nat, d.length < 8 →
        decodeAuctionStateData d = auctionStateTryFromSlice d) ∧
    (∀ d : List Nat, d.length = 145 →
        decodeAuctionStateData d = some (auctionStateOfBytes (d.drop 8)) ∧
          auctionStateTryFromSlice (d.drop 8) =
            some (auctionStateOfBytes (d.drop 8))) := by
  refine ⟨?_, ?_, ?_, ?_, ?_⟩
  · intro d h8 s hs
    rw [decodeAuctionStateData, if_pos h8, hs]
  · intro d h8 hnone
    rw [decodeAuctionStateData, if_pos h8, hnone]
  · intro d h8
    rw [decodeAuctionStateData, if_pos h8]
    cases hdrop : auctionStateTryFromSlice (d.drop 8) with
    | none => simp
    | some s => simp
  · intro d h8
    rw [decodeAuctionStateData, if_neg (by omega)]
  · intro d h145
    have hdrop : auctionStateTryFromSlice (d.drop 8) =
        some (auctionStateOfBytes (d.drop 8)) := by
      rw [auctionStateTryFromSlice_eq,
          if_pos (by rw [List.length_drop]; omega)]
    exact ⟨by rw [decodeAuctionStateData, if_pos (by omega), hdrop], hdrop⟩

/-- Witness for claim C1: a concrete 145-byte buffer decodes via the
skip-8 path. -/
theorem claim_C1_witness :
    8 ≤ (List.replicate 145 0 : List Nat).length ∧
      decodeAuctionStateData (List.replicate 145 0) =
        some (auctionStateOfBytes ((List.replicate 145 0 : List Nat).drop 8)) :=
  ⟨by simp, (claim_C1_decode_policy.2.2.2.2 (List.replicate 145 0)
    (by simp)).1⟩

/-- Claim C10: the AuctionState decode succeeds exactly on payloads of
137 bytes (the fixed Borsh layout) or 145 bytes (137 plus an 8-byte
discriminator); a 145-byte payload is read from offset 8, a 137-byte
payload from offset 0, and every other length yields a decode error. -/
theorem claim_C10_exact_lengths :
    (∀ d : List Nat, (∃ s, decodeAuctionStateData d = some s) ↔
        (d.length = 137 ∨ d.length = 145)) ∧
    (∀ d : List Nat, d.length = 145 →
        decodeAuctionStateData d = some (auctionStateOfBytes (d.drop 8))) ∧
    (∀ d : List Nat, d.length = 137 →
        decodeAuctionStateData d = some (auctionStateOfBytes d)) ∧
    (∀ d : List Nat, d.length ≠ 137 → d.length ≠ 145 →
        decodeAuctionStateData d = none) := by
  refine ⟨?_, ?_, ?_, ?_⟩
  · intro d
    rw [decodeAuctionStateData_eq]
    by_cases h145 : d.length = 145
    · rw [if_pos h145]
      exact ⟨fun _ => Or.inr h145, fun _ => ⟨_, rfl⟩⟩
    · rw [if_neg h145]
      by_cases h137 : d.length = 137
      · rw [if_pos h137]
        exact ⟨fun _ => Or.inl h137, fun _ => ⟨_, rfl⟩⟩
      · rw [if_neg h137]
        constructor
        · rintro ⟨s, hs⟩
          cases hs
        · rintro (h | h)
          · exact absurd h h137
          · exact absurd h h145
  · intro d h145
    rw [decodeAuctionStateData_eq, if_pos h145]
  · intro d h137
    rw [decodeAuctionStateData_eq, if_neg (by omega), if_pos h137]
  · intro d h137 h145
    rw [decodeAuctionStateData_eq, if_neg h145, if_neg h137]

/-- Witness for claim C10: concrete payloads of lengths 137, 145 and 7. -/
theorem claim_C10_witness :
    decodeAuctionStateData (List.replicate 137 1) =
        some (auctionStateOfBytes (List.replicate 137 1)) ∧
      decodeAuctionStateData (List.replicate 7 0) = none :=
  ⟨claim_C10_exact_lengths.2.2.1 (List.replicate 137 1) (by simp),
   claim_C10_exact_lengths.2.2.2 (List.replicate 7 0) (by simp) (by simp)⟩

/-- Claim C8: to_bytes32 accepts exactly 32-byte decoded inputs, returning
them unchanged, and fatally panics (rather than returning a structured
error) on every decoded input of any other length; the hex input of 64
zero characters yields 32 zero bytes. -/
theorem claim_C8_to_bytes32 :
    (∀ input format bs, parseInputBytes input format = .ok bs →
        bs.length = 32 → to_bytes32 input format = .ok bs) ∧
    (∀ input format bs, parseInputBytes input format = .ok bs →
        bs.length ≠ 32 → to_bytes32 input format = .panicked) ∧
    to_bytes32
        "0000000000000000000000000000000000000000000000000000000000000000"
        "hex" = .ok (List.replicate 32 0) := by
  refine ⟨?_, ?_, ?_⟩
  · intro input format bs hp h32
    simp only [to_bytes32, hp]
    rw [if_neg (by omega)]
  · intro input format bs hp h32
    simp only [to_bytes32, hp]
    rw [if_pos h32]
  · decide

/-- Witness for claim C8: the accepting and panicking branches exercised
at concrete inputs. -/
theorem claim_C8_witness :
    to_bytes32
        "0x0101010101010101010101010101010101010101010101010101010101010101"
        "hex" = .ok (List.replicate 32 1) ∧
      to_bytes32 "01" "hex" = .panicked :=
  ⟨claim_C8_to_bytes32.1 _ "hex" (List.replicate 32 1) (by decide) (by decide),
   claim_C8_to_bytes32.2.1 "01" "hex" [1] (by decide) (by decide)⟩

/-- Claim C9: from_bytes32 zero-left-pads every decoded input of at most
32 bytes to a 32-byte result preserving trailing byte order, and fatally
panics on every decoded input longer than 32 bytes; hex input 01 yields
31 zero bytes followed by 0x01. -/
theorem claim_C9_from_bytes32 :
    (∀ input inFmt bs, parseInputBytes input inFmt = .ok bs →
        bs.length ≤ 32 →
        from_bytes32 input inFmt "hex" =
            .ok (List.replicate (32 - bs.length) 0 ++ bs) ∧
          from_bytes32 input inFmt "bytes" =
            .ok (List.replicate (32 - bs.length) 0 ++ bs) ∧
          (List.replicate (32 - bs.length) 0 ++ bs).length = 32) ∧
    (∀ input inFmt outFmt bs, parseInputBytes input inFmt = .ok bs →
        32 < bs.length → from_bytes32 input inFmt outFmt = .panicked) ∧
    from_bytes32 "01" "hex" "hex" = .ok (List.replicate 31 0 ++ [1]) := by
  refine ⟨?_, ?_, ?_⟩
  · intro input inFmt bs hp h32
    refine ⟨?_, ?_, ?_⟩
    · simp only [from_bytes32, hp]
      rw [if_neg (by omega), if_pos (by decide)]
    · simp only [from_bytes32, hp]
      rw [if_neg (by omega), if_neg (by decide), if_pos (by decide)]
    · simp
      omega
  · intro input inFmt outFmt bs hp h32
    simp only [from_bytes32, hp]
    rw [if_pos h32]
  · decide

/-- Witness for claim C9: padding and panic branches at concrete inputs. -/
theorem claim_C9_witness :
    from_bytes32 "0002" "hex" "hex" = .ok (List.replicate 30 0 ++ [0, 2]) ∧
      from_bytes32
        "000000000000000000000000000000000000000000000000000000000000000000"
        "hex" "hex" = .panicked := by
  constructor
  · have h := (claim_C9_from_bytes32.1 "0002" "hex" [0, 2] (by decide)
      (by decide)).1
    simpa using h
  · exact claim_C9_from_bytes32.2.1 _ "hex" "hex" (List.replicate 33 0)
      (by decide) (by decide)

/-- Counterexample to claim C3: a 2xx response whose JSON body holds
exactly the auctionStateAddr string field is rejected with a parse error
(the serde struct also demands the id and status fields), not accepted. -/
theorem claim_C3_counterexample :
    get_auction_state_addr
        (.resp 200 (some (Json.obj [("auctionStateAddr", Json.str "addr")])))
      = .parseErr := by
  decide

/-- Claim C3 (amended): get_auction_state_addr succeeds, returning the
auctionStateAddr value, for every 2xx response whose JSON body is an
object providing string fields auctionStateAddr, id and status once each;
it errors exactly when the send fails, the status is non-2xx, or the body
does not parse as that shape. -/
theorem claim_C3_resolver :
    (∀ status (fields : List (String × Json)) (a i st : String),
        200 ≤ status → status ≤ 299 →
        slotState fields "auctionStateAddr" none a →
        slotState fields "id" none i →
        slotState fields "status" none st →
        get_auction_state_addr (.resp status (some (Json.obj fields))) =
          .ok a) ∧
    (get_auction_state_addr .sendFailure = .sendErr) ∧
    (∀ status body, ¬ (200 ≤ status ∧ status ≤ 299) →
        get_auction_state_addr (.resp status body) = .statusErr status) ∧
    (∀ status, 200 ≤ status → status ≤ 299 →
        get_auction_state_addr (.resp status none) = .parseErr) ∧
    (∀ status j, 200 ≤ status → status ≤ 299 → parseMayanOrder j = none →
        get_auction_state_addr (.resp status (some j)) = .parseErr) := by
  refine ⟨?_, rfl, ?_, ?_, ?_⟩
  · intro status fields a i st h1 h2 ha hi hst
    have hvisit := mayanFieldsVisit_complete fields a i st none none none
      ha hi hst
    simp only [get_auction_state_addr, parseMayanOrder, hvisit,
               if_neg (show ¬ ¬ (200 ≤ status ∧ status ≤ 299) by omega)]
  · intro status body h
    simp only [get_auction_state_addr, if_pos h]
  · intro status h1 h2
    simp only [get_auction_state_addr,
               if_neg (show ¬ ¬ (200 ≤ status ∧ status ≤ 299) by omega)]
  · intro status j h1 h2 hparse
    simp only [get_auction_state_addr, hparse,
               if_neg (show ¬ ¬ (200 ≤ status ∧ status ≤ 299) by omega)]

/-- Witness for claim C3: a concrete complete body is accepted, a
concrete non-2xx status and an incomplete body are rejected. -/
theorem claim_C3_witness :
    get_auction_state_addr (.resp 200 (some (Json.obj
        [("auctionStateAddr", Json.str "A"), ("id", Json.str "I"),
         ("status", Json.str "S")]))) = .ok "A" ∧
      get_auction_state_addr (.resp 404 none) = .statusErr 404 :=
  ⟨claim_C3_resolver.1 200 _ "A" "I" "S" (by omega) (by omega)
      (Or.inr ⟨rfl, rfl⟩) (Or.inr ⟨rfl, rfl⟩) (Or.inr ⟨rfl, rfl⟩),
   claim_C3_resolver.2.2.1 404 none (by omega)⟩

/-- A bid transaction record used as concrete input: marker present,
JSON-parsed message, instruction 2 partially decoded with the given
data. -/
def mkBidTx (sig : String) (slot : Nat) (instrs : List UiInstr) : TxRecord :=
  ⟨sig, slot, none, true,
   some ⟨some ⟨false, some [bidMarker]⟩,
         EncTx.json (UiMsg.parsed ["payer"] instrs)⟩⟩

/-- Counterexample to claim C2: a qualifying bid transaction whose
instruction data is not valid base58 makes get_bid_history panic via
unwrap, rather than recording a zero bid amount. -/
theorem claim_C2_counterexample :
    get_bid_history true
        (some [mkBidTx "sigBad58" 10
          [UiInstr.otherInstr, UiInstr.otherInstr, UiInstr.partDecoded "0"]])
      = .panicked ∧ bs58Decode "0" = none := by
  constructor
  · decide
  · decide

/-- Claim C2 (amended): for every qualifying bid transaction whose
instruction data base58-decodes to at least 8 bytes, the recorded bid
amount is the little-endian u64 of the trailing 8 decoded bytes; when the
base58 decode fails or yields fewer than 8 bytes, the process panics
(aborts) instead of recording zero. -/
theorem claim_C2_bid_amount :
    (∀ t acc f m ks instrs ds bidder data,
        t.sigOk = true → t.fetched = some f → f.meta = some m →
        logValid m = true → f.tx = EncTx.json (UiMsg.parsed ks instrs) →
        instrs[2]? = some (UiInstr.partDecoded ds) →
        ks[0]? = some bidder →
        bs58Decode ds = some data → 8 ≤ data.length →
        stepTx t acc = .cont (acc ++ [⟨t.signature, bidder,
          leU64 (data.drop (data.length - 8)), t.slot, t.blockTime,
          m.err⟩])) ∧
    (∀ t acc f m ks instrs ds bidder,
        t.sigOk = true → t.fetched = some f → f.meta = some m →
        logValid m = true → f.tx = EncTx.json (UiMsg.parsed ks instrs) →
        instrs[2]? = some (UiInstr.partDecoded ds) →
        ks[0]? = some bidder →
        bs58Decode ds = none → stepTx t acc = .panicked) ∧
    (∀ t acc f m ks instrs ds bidder data,
        t.sigOk = true → t.fetched = some f → f.meta = some m →
        logValid m = true → f.tx = EncTx.json (UiMsg.parsed ks instrs) →
        instrs[2]? = some (UiInstr.partDecoded ds) →
        ks[0]? = some bidder →
        bs58Decode ds = some data → data.length < 8 →
        stepTx t acc = .panicked) := by
  refine ⟨?_, ?_, ?_⟩
  · intro t acc f m ks instrs ds bidder data hs hf hm hv htx h2 hk hd hlen
    simp [stepTx, hs, hf, hm, hv, htx, h2, hk, hd, Nat.not_lt.mpr hlen]
  · intro t acc f m ks instrs ds bidder hs hf hm hv htx h2 hk hd
    simp [stepTx, hs, hf, hm, hv, htx, h2, hk, hd]
  · intro t acc f m ks instrs ds bidder data hs hf hm hv htx h2 hk hd hlen
    simp [stepTx, hs, hf, hm, hv, htx, h2, hk, hd, hlen]

/-- Witness for claim C2: a qualifying transaction whose data decodes to
eleven zero bytes records a zero bid amount; a short payload panics. -/
theorem claim_C2_witness :
    stepTx (mkBidTx "sigOkBid" 42
        [UiInstr.otherInstr, UiInstr.otherInstr,
         UiInstr.partDecoded "11111111111"]) []
      = .cont [⟨"sigOkBid", "payer", 0, 42, none, false⟩] ∧
    stepTx (mkBidTx "sigShortData" 43
        [UiInstr.otherInstr, UiInstr.otherInstr,
         UiInstr.partDecoded "11"]) []
      = .panicked := by
  constructor
  · have h := claim_C2_bid_amount.1 (mkBidTx "sigOkBid" 42
      [UiInstr.otherInstr, UiInstr.otherInstr,
       UiInstr.partDecoded "11111111111"]) [] _ _ ["payer"]
      [UiInstr.otherInstr, UiInstr.otherInstr,
       UiInstr.partDecoded "11111111111"] "11111111111" "payer"
      (List.replicate 11 0) rfl rfl rfl (by decide) rfl (by decide)
      (by decide) (by decide) (by decide)
    simpa using h
  · exact claim_C2_bid_amount.2.2 (mkBidTx "sigShortData" 43
      [UiInstr.otherInstr, UiInstr.otherInstr, UiInstr.partDecoded "11"])
      [] _ _ ["payer"]
      [UiInstr.otherInstr, UiInstr.otherInstr, UiInstr.partDecoded "11"]
      "11" "payer" [0, 0] rfl rfl rfl (by decide) rfl (by decide)
      (by decide) (by decide) (by decide)

/-- Counterexample to claim C4: a bid-marked, JSON-parsed transaction
whose instruction list has only two entries is a per-transaction shape
mismatch, yet get_bid_history panics on the out-of-bounds index 2 instead
of skipping it. -/
theorem claim_C4_counterexample :
    get_bid_history true
        (some [mkBidTx "sigShort" 11 [UiInstr.otherInstr, UiInstr.otherInstr]])
      = .panicked := by
  decide

/-- Claim C4 (amended): in get_bid_history, for a bid-marked transaction,
an unsupported transaction encoding, an unparsed message, or an
instruction present at index 2 that is not a partially-decoded parsed
instruction each cause the transaction to be skipped (the last with a
diagnostic print) without failing the operation; however a parsed message
with no instruction at index 2 causes a fatal abort, not a skip. -/
theorem claim_C4_shape_mismatch :
    (∀ t acc f m, t.sigOk = true → t.fetched = some f → f.meta = some m →
        logValid m = true → f.tx = EncTx.other → stepTx t acc = .cont acc) ∧
    (∀ t acc f m, t.sigOk = true → t.fetched = some f → f.meta = some m →
        logValid m = true → f.tx = EncTx.json UiMsg.raw →
        stepTx t acc = .cont acc) ∧
    (∀ t acc f m ks instrs, t.sigOk = true → t.fetched = some f →
        f.meta = some m → logValid m = true →
        f.tx = EncTx.json (UiMsg.parsed ks instrs) →
        instrs[2]? = some UiInstr.otherInstr → stepTx t acc = .cont acc) ∧
    (∀ t acc f m ks instrs, t.sigOk = true → t.fetched = some f →
        f.meta = some m → logValid m = true →
        f.tx = EncTx.json (UiMsg.parsed ks instrs) →
        instrs[2]? = none → stepTx t acc = .panicked) := by
  refine ⟨?_, ?_, ?_, ?_⟩
  · intro t acc f m hs hf hm hv htx
    simp [stepTx, hs, hf, hm, hv, htx]
  · intro t acc f m hs hf hm hv htx
    simp [stepTx, hs, hf, hm, hv, htx]
  · intro t acc f m ks instrs hs hf hm hv htx h2
    simp [stepTx, hs, hf, hm, hv, htx, h2]
  · intro t acc f m ks instrs hs hf hm hv htx h2
    simp [stepTx, hs, hf, hm, hv, htx, h2]

/-- Witness for claim C4: concrete skipped transactions for each
enumerated mismatch shape. -/
theorem claim_C4_witness :
    stepTx ⟨"sigEnc", 1, none, true,
        some ⟨some ⟨false, some [bidMarker]⟩, EncTx.other⟩⟩ [] = .cont [] ∧
    stepTx ⟨"sigRaw", 2, none, true,
        some ⟨some ⟨false, some [bidMarker]⟩, EncTx.json UiMsg.raw⟩⟩ []
      = .cont [] ∧
    stepTx (mkBidTx "sigOther2" 3
        [UiInstr.otherInstr, UiInstr.otherInstr, UiInstr.otherInstr]) []
      = .cont [] :=
  ⟨claim_C4_shape_mismatch.1 _ [] _ _ rfl rfl rfl (by decide) rfl,
   claim_C4_shape_mismatch.2.1 _ [] _ _ rfl rfl rfl (by decide) rfl,
   claim_C4_shape_mismatch.2.2.1 _ [] _ _ ["payer"]
     [UiInstr.otherInstr, UiInstr.otherInstr, UiInstr.otherInstr]
     rfl rfl rfl (by decide) rfl (by decide)⟩

/-- Claim C5: get_bid_history is atomic with respect to RPC failures: a
failed signature listing returns an error; a reached transaction whose
fetch fails or whose metadata is missing makes the whole operation return
an error; and whenever a bid list is returned at all, every one of the
first 100 transactions was fetched successfully with metadata present, so
no partial list is ever returned. -/
theorem claim_C5_atomic_failures :
    (get_bid_history true none = .error) ∧
    (∀ (txs : List TxRecord) pre t post acc,
        txs.take 100 = pre ++ t :: post →
        runCollect pre [] = .done acc →
        (t.fetched = none ∨ ∃ f, t.fetched = some f ∧ f.meta = none) →
        get_bid_history true (some txs) = .error) ∧
    (∀ addrOk listing bids, get_bid_history addrOk listing = .ok bids →
        ∃ txs, listing = some txs ∧
          ∀ t ∈ txs.take 100, t.sigOk = true ∧
            ∃ f m, t.fetched = some f ∧ f.meta = some m) := by
  refine ⟨rfl, ?_, ?_⟩
  · intro txs pre t post acc htake hpre hfail
    have hstep : stepTx t acc = .fail := stepTx_fail_of_fetch t acc hfail
    have hrun : runCollect (txs.take 100) [] = .fail := by
      rw [htake, runCollect_append, hpre]
      show runCollect (t :: post) acc = .fail
      rw [runCollect, hstep]
    simp [get_bid_history, hrun]
  · intro addrOk listing bids h
    cases addrOk with
    | false => simp [get_bid_history] at h
    | true =>
      cases listing with
      | none => simp [get_bid_history] at h
      | some txs =>
        refine ⟨txs, rfl, ?_⟩
        cases hrun : runCollect (txs.take 100) [] with
        | done acc => exact runCollect_done_inv (txs.take 100) [] acc hrun
        | fail => simp [get_bid_history, hrun] at h
        | panicked => simp [get_bid_history, hrun] at h

/-- Witness for claim C5: a concrete run whose only transaction fails to
fetch returns an error. -/
theorem claim_C5_witness :
    get_bid_history true (some [(⟨"sigFetchFail", 1, none, true, none⟩ :
      TxRecord)]) = .error :=
  claim_C5_atomic_failures.2.1 [⟨"sigFetchFail", 1, none, true, none⟩]
    [] ⟨"sigFetchFail", 1, none, true, none⟩ [] [] rfl rfl (Or.inl rfl)

/-- Claim C6: every successful get_bid_history run returns the collected
bids sorted ascending by slot, stably: for every slot value the sublist of
entries with that slot equals the one in discovery order; and entries
discovered with slots 5, 2, 9 come out in order 2, 5, 9. -/
theorem claim_C6_sorted_stable :
    (∀ addrOk listing bids, get_bid_history addrOk listing = .ok bids →
        bids.Sorted slotLE ∧
        ∃ txs acc, listing = some txs ∧
          runCollect (txs.take 100) [] = .done acc ∧
          bids = sortBySlot acc ∧
          ∀ s : Nat, bids.filter (fun b => b.slot == s) =
            acc.filter (fun b => b.slot == s)) ∧
    (sortBySlot [⟨"s1", "b1", 1, 5, none, false⟩,
        ⟨"s2", "b2", 2, 2, none, false⟩, ⟨"s3", "b3", 3, 9, none, false⟩] =
      [⟨"s2", "b2", 2, 2, none, false⟩, ⟨"s1", "b1", 1, 5, none, false⟩,
       ⟨"s3", "b3", 3, 9, none, false⟩]) := by
  constructor
  · intro addrOk listing bids h
    cases addrOk with
    | false => simp [get_bid_history] at h
    | true =>
      cases listing with
      | none => simp [get_bid_history] at h
      | some txs =>
        cases hrun : runCollect (txs.take 100) [] with
        | done acc =>
          simp only [get_bid_history, hrun] at h
          have hb : sortBySlot acc = bids := by
            simpa using h
          subst hb
          exact ⟨sortBySlot_sorted acc,
            txs, acc, rfl, hrun, rfl, sortBySlot_filter acc⟩
        | fail => simp [get_bid_history, hrun] at h
        | panicked => simp [get_bid_history, hrun] at h
  · decide

/-- Witness for claim C6: a concrete run discovering slots 5 then 2
returns them sorted as 2 then 5. -/
theorem claim_C6_witness :
    ([⟨"sB", "payer", 0, 2, none, false⟩,
      ⟨"sA", "payer", 0, 5, none, false⟩] : List BidEntry).Sorted slotLE :=
  (claim_C6_sorted_stable.1 true
    (some [mkBidTx "sA" 5 [UiInstr.otherInstr, UiInstr.otherInstr,
             UiInstr.partDecoded "11111111111"],
           mkBidTx "sB" 2 [UiInstr.otherInstr, UiInstr.otherInstr,
             UiInstr.partDecoded "11111111111"]])
    [⟨"sB", "payer", 0, 2, none, false⟩, ⟨"sA", "payer", 0, 5, none, false⟩]
    (by decide)).1

/-- Claim C7: a transaction whose log messages lack the literal bid
marker (including one with no log messages at all) is skipped before any
instruction inspection, and every entry of a returned bid list stems from
a transaction carrying the marker: the marker is the sole discriminator
of bid transactions. -/
theorem claim_C7_marker_filter :
    (∀ t acc f m, t.sigOk = true → t.fetched = some f → f.meta = some m →
        logValid m = false → stepTx t acc = .cont acc) ∧
    (∀ addrOk listing bids b, get_bid_history addrOk listing = .ok bids →
        b ∈ bids → ∃ txs, listing = some txs ∧
          ∃ t, t ∈ txs.take 100 ∧ txHasBidMarker t = true ∧
            b.signature = t.signature) := by
  constructor
  · intro t acc f m hs hf hm hv
    simp [stepTx, hs, hf, hm, hv]
  · intro addrOk listing bids b h hb
    cases addrOk with
    | false => simp [get_bid_history] at h
    | true =>
      cases listing with
      | none => simp [get_bid_history] at h
      | some txs =>
        cases hrun : runCollect (txs.take 100) [] with
        | done acc =>
          simp only [get_bid_history, hrun] at h
          have hbids : sortBySlot acc = bids := by simpa using h
          subst hbids
          have hacc : b ∈ acc := (sortBySlot_perm acc).mem_iff.mp hb
          rcases runCollect_done_mem (txs.take 100) [] acc hrun b hacc with
            hnil | ⟨t, ht, hmk, hsig⟩
          · exact absurd hnil (List.not_mem_nil b)
          · exact ⟨txs, rfl, t, ht, hmk, hsig⟩
        | fail => simp [get_bid_history, hrun] at h
        | panicked => simp [get_bid_history, hrun] at h

/-- Witness for claim C7: a concrete transaction with unrelated log
messages is skipped even though its instruction list has a valid bid
shape. -/
theorem claim_C7_witness :
    stepTx ⟨"sigNoMark", 7, none, true,
        some ⟨some ⟨false, some ["Program log: hello"]⟩,
          EncTx.json (UiMsg.parsed ["payer"]
            [UiInstr.otherInstr, UiInstr.otherInstr,
             UiInstr.partDecoded "11111111111"])⟩⟩ [] = .cont [] :=
  claim_C7_marker_filter.1 _ [] _ _ rfl rfl rfl (by decide)
